import Mathlib

/-!
Verification of a 3-qubit QGAN state-vector simulation.

The development embeds the quantum circuits of the repository
(`real`, `generator`, `discriminator`), the Pauli-Z expectation value,
the QGAN cost functions, and the two-phase SGD training loop, and
proves the specification claims about them.

Convention: basis index `i : Fin 8` encodes the wires as
index = q0*4 + q1*2 + q2, so wire 0 is the most significant bit.
-/

open Complex Finset ComplexConjugate

/-- A state of the 3-wire register: 8 complex amplitudes. -/
abbrev QState := Fin 8 → ℂ

/-- The bit of basis index `i` belonging to wire `w` (wire 0 is the MSB). -/
def bit (w : Fin 3) (i : Fin 8) : Bool := Nat.testBit i.val (2 - w.val)

/-- Flip the bit of basis index `i` belonging to wire `w`. -/
def flipB (w : Fin 3) (i : Fin 8) : Fin 8 :=
  ⟨(i.val ^^^ (1 <<< (2 - w.val))) % 8, Nat.mod_lt _ (by norm_num)⟩

lemma bit_flipB_self : ∀ (w : Fin 3) (i : Fin 8), bit w (flipB w i) = !(bit w i) := by decide

lemma bit_flipB_ne : ∀ (c t : Fin 3) (i : Fin 8), c ≠ t → bit c (flipB t i) = bit c i := by decide

lemma flipB_flipB : ∀ (w : Fin 3) (i : Fin 8), flipB w (flipB w i) = i := by decide

lemma bit_zero_idx : ∀ w : Fin 3, bit w 0 = false := by decide

/-- Apply a single-qubit gate with matrix `[[a,b],[c,d]]` to wire `w`. -/
def applySingle (a b c d : ℂ) (w : Fin 3) (v : QState) : QState := fun i =>
  if bit w i then c * v (flipB w i) + d * v i else a * v i + b * v (flipB w i)

/-- Apply a CNOT gate with control wire `c` and target wire `t`. -/
def applyCNOT (c t : Fin 3) (v : QState) : QState := fun i =>
  if bit c i then v (flipB t i) else v i

/-- The Hadamard matrix entry 1/sqrt 2. -/
noncomputable def hEntry : ℂ := ((Real.sqrt 2)⁻¹ : ℝ)

/-- Apply a Hadamard gate to wire `w`. -/
noncomputable def applyH (w : Fin 3) (v : QState) : QState :=
  applySingle hEntry hEntry hEntry (-hEntry) w v

/-- Apply RX(θ) = exp(-i θ X / 2) to wire `w`. -/
noncomputable def applyRX (θ : ℝ) (w : Fin 3) (v : QState) : QState :=
  applySingle ((Real.cos (θ / 2) : ℝ) : ℂ) (-(Complex.I * ((Real.sin (θ / 2) : ℝ) : ℂ)))
    (-(Complex.I * ((Real.sin (θ / 2) : ℝ) : ℂ))) ((Real.cos (θ / 2) : ℝ) : ℂ) w v

/-- Apply RY(θ) = exp(-i θ Y / 2) to wire `w`. -/
noncomputable def applyRY (θ : ℝ) (w : Fin 3) (v : QState) : QState :=
  applySingle ((Real.cos (θ / 2) : ℝ) : ℂ) (-((Real.sin (θ / 2) : ℝ) : ℂ))
    ((Real.sin (θ / 2) : ℝ) : ℂ) ((Real.cos (θ / 2) : ℝ) : ℂ) w v

/-- Apply RZ(θ) = exp(-i θ Z / 2) = diag(exp(-iθ/2), exp(iθ/2)) to wire `w`. -/
noncomputable def applyRZ (θ : ℝ) (w : Fin 3) (v : QState) : QState :=
  applySingle (Complex.exp (((-(θ / 2) : ℝ) : ℂ) * Complex.I)) 0 0
    (Complex.exp (((θ / 2 : ℝ) : ℂ) * Complex.I)) w v

/-- Apply the general rotation Rot(φ,θ,ω) = RZ(ω)·RY(θ)·RZ(φ) to wire `w`. -/
noncomputable def applyRot (φ θ ω : ℝ) (w : Fin 3) (v : QState) : QState :=
  applyRZ ω w (applyRY θ w (applyRZ φ w v))

/-- Gates that occur in the three circuits of the program. -/
inductive Gate where
  | had : Fin 3 → Gate
  | rx : ℝ → Fin 3 → Gate
  | ry : ℝ → Fin 3 → Gate
  | rz : ℝ → Fin 3 → Gate
  | rot : ℝ → ℝ → ℝ → Fin 3 → Gate
  | cnot : Fin 3 → Fin 3 → Gate

/-- Semantics of a single gate. -/
noncomputable def Gate.apply : Gate → QState → QState
  | .had w, v => applyH w v
  | .rx θ w, v => applyRX θ w v
  | .ry θ w, v => applyRY θ w v
  | .rz θ w, v => applyRZ θ w v
  | .rot φ θ ω w, v => applyRot φ θ ω w v
  | .cnot c t, v => applyCNOT c t v

/-- Run a gate sequence on a state. -/
noncomputable def run (gs : List Gate) (v : QState) : QState :=
  gs.foldl (fun s g => g.apply s) v

/-- The initial basis state |000⟩. -/
def init : QState := fun i => if i = 0 then 1 else 0

/-- The real-data circuit: Hadamard then Rot(φ,θ,ω), both on wire 0. -/
def realC (φ θ ω : ℝ) : List Gate := [.had 0, .rot φ θ ω 0]

/-- The generator circuit on wires 0 and 1, with 9 weights. -/
def genC (w : Fin 9 → ℝ) : List Gate :=
  [.had 0, .rx (w 0) 0, .rx (w 1) 1, .ry (w 2) 0, .ry (w 3) 1,
   .rz (w 4) 0, .rz (w 5) 1, .cnot 0 1, .rx (w 6) 0, .ry (w 7) 0, .rz (w 8) 0]

/-- The discriminator circuit on wires 0 and 2, with 9 weights. -/
def discC (w : Fin 9 → ℝ) : List Gate :=
  [.had 0, .rx (w 0) 0, .rx (w 1) 2, .ry (w 2) 0, .ry (w 3) 2,
   .rz (w 4) 0, .rz (w 5) 2, .cnot 0 2, .rx (w 6) 2, .ry (w 7) 2, .rz (w 8) 2]

/-- Sign of basis index `i` under the Pauli-Z observable on wire `w`. -/
def signZ (w : Fin 3) (i : Fin 8) : ℝ := if bit w i then -1 else 1

/-- Pauli-Z expectation value on wire `w`: sum of ±|amplitude|². -/
noncomputable def expZ (w : Fin 3) (v : QState) : ℝ :=
  ∑ i, signZ w i * Complex.normSq (v i)

/-- Squared 2-norm of a state. -/
noncomputable def normSqT (v : QState) : ℝ := ∑ i, Complex.normSq (v i)

/-- Fixed real-data angle φ = π/6 of the program. -/
noncomputable def phi : ℝ := Real.pi / 6

/-- Fixed real-data angle θ = π/2 of the program. -/
noncomputable def theta : ℝ := Real.pi / 2

/-- Fixed real-data angle ω = π/7 of the program. -/
noncomputable def omega : ℝ := Real.pi / 7

/-- QNode `real_disc_circuit`: real data circuit, then discriminator,
measuring Pauli-Z on wire 2. -/
noncomputable def real_disc_circuit (φ θ ω : ℝ) (disc_weights : Fin 9 → ℝ) : ℝ :=
  expZ 2 (run (realC φ θ ω ++ discC disc_weights) init)

/-- QNode `gen_disc_circuit`: generator, then discriminator,
measuring Pauli-Z on wire 2. -/
noncomputable def gen_disc_circuit (gen_weights disc_weights : Fin 9 → ℝ) : ℝ :=
  expZ 2 (run (genC gen_weights ++ discC disc_weights) init)

/-- Probability that the discriminator classifies real data as real. -/
noncomputable def prob_real_true (disc_weights : Fin 9 → ℝ) : ℝ :=
  (real_disc_circuit phi theta omega disc_weights + 1) / 2

/-- Probability that the discriminator classifies the generated state as real. -/
noncomputable def prob_fake_true (gen_weights disc_weights : Fin 9 → ℝ) : ℝ :=
  (gen_disc_circuit gen_weights disc_weights + 1) / 2

/-- Discriminator cost. -/
noncomputable def disc_cost (gen_weights disc_weights : Fin 9 → ℝ) : ℝ :=
  prob_fake_true gen_weights disc_weights - prob_real_true disc_weights

/-- Generator cost. -/
noncomputable def gen_cost (gen_weights disc_weights : Fin 9 → ℝ) : ℝ :=
  -prob_fake_true gen_weights disc_weights

/-! Norm preservation -/

/-- Orthonormal-columns condition for a 2×2 complex matrix `[[a,b],[c,d]]`. -/
def Unitary2 (a b c d : ℂ) : Prop :=
  a * conj a + c * conj c = 1 ∧ b * conj b + d * conj d = 1 ∧ a * conj b + c * conj d = 0

lemma pair_norm (a b c d x y : ℂ)
    (h1 : a * conj a + c * conj c = 1) (h2 : b * conj b + d * conj d = 1)
    (h3 : a * conj b + c * conj d = 0) :
    normSq (a * x + b * y) + normSq (c * x + d * y) = normSq x + normSq y := by
  have h4 : conj a * b + conj c * d = 0 := by
    have := congrArg (starRingEnd ℂ) h3
    simpa [map_add, map_mul, mul_comm] using this
  have key : (a * x + b * y) * conj (a * x + b * y) + (c * x + d * y) * conj (c * x + d * y)
      = x * conj x + y * conj y := by
    simp only [map_add, map_mul]
    linear_combination (x * conj x) * h1 + (y * conj y) * h2 + (x * conj y) * h3 +
      (conj x * y) * h4
  rw [Complex.mul_conj, Complex.mul_conj, Complex.mul_conj, Complex.mul_conj] at key
  exact_mod_cast key

lemma sum_split (w : Fin 3) (f : Fin 8 → ℝ) :
    ∑ i, f i =
      ∑ i ∈ Finset.filter (fun i => bit w i = false) Finset.univ, (f i + f (flipB w i)) := by
  rw [Finset.sum_add_distrib,
    ← Finset.sum_filter_add_sum_filter_not Finset.univ (fun i => bit w i = false) f]
  congr 1
  refine Finset.sum_nbij' (fun i => flipB w i) (fun i => flipB w i) ?_ ?_ ?_ ?_ ?_
  · intro i hi
    simp only [Finset.mem_filter, Finset.mem_univ, true_and] at hi ⊢
    simp [bit_flipB_self, hi]
  · intro i hi
    simp only [Finset.mem_filter, Finset.mem_univ, true_and] at hi ⊢
    simp [bit_flipB_self, hi]
  · intro i _; exact flipB_flipB w i
  · intro i _; exact flipB_flipB w i
  · intro i _; rw [flipB_flipB]

lemma applySingle_normSqT {a b c d : ℂ} (hu : Unitary2 a b c d) (w : Fin 3) (v : QState) :
    normSqT (applySingle a b c d w v) = normSqT v := by
  obtain ⟨h1, h2, h3⟩ := hu
  unfold normSqT
  rw [sum_split w (fun i => Complex.normSq (applySingle a b c d w v i)),
    sum_split w (fun i => Complex.normSq (v i))]
  refine Finset.sum_congr rfl ?_
  intro i hi
  simp only [Finset.mem_filter, Finset.mem_univ, true_and] at hi
  have hbt : bit w (flipB w i) = true := by simp [bit_flipB_self, hi]
  simp only [applySingle, hi, hbt, if_true, if_false, Bool.false_eq_true, flipB_flipB]
  exact pair_norm a b c d (v i) (v (flipB w i)) h1 h2 h3

lemma unitary_H : Unitary2 hEntry hEntry hEntry (-hEntry) := by
  have hs : Real.sqrt 2 * Real.sqrt 2 = 2 := Real.mul_self_sqrt (by norm_num)
  have hr : ((Real.sqrt 2)⁻¹ : ℝ) * (Real.sqrt 2)⁻¹ = 2⁻¹ := by rw [← mul_inv, hs]
  have hc : hEntry * conj hEntry = (2 : ℂ)⁻¹ := by
    rw [hEntry, Complex.conj_ofReal, ← Complex.ofReal_mul, hr]
    norm_num
  refine ⟨?_, ?_, ?_⟩
  · rw [hc]; norm_num
  · rw [map_neg, neg_mul_neg, hc]; norm_num
  · rw [map_neg, mul_neg]; ring

lemma unitary_RX (θ : ℝ) :
    Unitary2 ((Real.cos (θ / 2) : ℝ) : ℂ) (-(Complex.I * ((Real.sin (θ / 2) : ℝ) : ℂ)))
      (-(Complex.I * ((Real.sin (θ / 2) : ℝ) : ℂ))) ((Real.cos (θ / 2) : ℝ) : ℂ) := by
  have hP : ((Real.cos (θ / 2) : ℝ) : ℂ) * ((Real.cos (θ / 2) : ℝ) : ℂ) +
      ((Real.sin (θ / 2) : ℝ) : ℂ) * ((Real.sin (θ / 2) : ℝ) : ℂ) = 1 := by
    have := Real.sin_sq_add_cos_sq (θ / 2)
    exact_mod_cast by nlinarith [this]
  refine ⟨?_, ?_, ?_⟩ <;>
    simp only [map_neg, map_mul, Complex.conj_ofReal, Complex.conj_I]
  · linear_combination hP - (((Real.sin (θ / 2) : ℝ) : ℂ) * ((Real.sin (θ / 2) : ℝ) : ℂ)) *
      Complex.I_sq
  · linear_combination hP - (((Real.sin (θ / 2) : ℝ) : ℂ) * ((Real.sin (θ / 2) : ℝ) : ℂ)) *
      Complex.I_sq
  · ring

lemma unitary_RY (θ : ℝ) :
    Unitary2 ((Real.cos (θ / 2) : ℝ) : ℂ) (-((Real.sin (θ / 2) : ℝ) : ℂ))
      ((Real.sin (θ / 2) : ℝ) : ℂ) ((Real.cos (θ / 2) : ℝ) : ℂ) := by
  have hP : ((Real.cos (θ / 2) : ℝ) : ℂ) * ((Real.cos (θ / 2) : ℝ) : ℂ) +
      ((Real.sin (θ / 2) : ℝ) : ℂ) * ((Real.sin (θ / 2) : ℝ) : ℂ) = 1 := by
    have := Real.sin_sq_add_cos_sq (θ / 2)
    exact_mod_cast by nlinarith [this]
  refine ⟨?_, ?_, ?_⟩ <;> simp only [map_neg, Complex.conj_ofReal]
  · linear_combination hP
  · linear_combination hP
  · ring

lemma exp_I_mul_conj (x : ℝ) :
    Complex.exp ((x : ℂ) * Complex.I) * conj (Complex.exp ((x : ℂ) * Complex.I)) = 1 := by
  rw [← Complex.exp_conj, map_mul, Complex.conj_ofReal, Complex.conj_I, ← Complex.exp_add]
  simp

lemma unitary_RZ (θ : ℝ) :
    Unitary2 (Complex.exp (((-(θ / 2) : ℝ) : ℂ) * Complex.I)) 0 0
      (Complex.exp (((θ / 2 : ℝ) : ℂ) * Complex.I)) := by
  refine ⟨?_, ?_, ?_⟩
  · rw [exp_I_mul_conj]; ring
  · rw [exp_I_mul_conj]; simp
  · simp

/-- The basis-index permutation effected by a CNOT gate. -/
def cnotPerm (c t : Fin 3) : Fin 8 → Fin 8 := fun i => if bit c i then flipB t i else i

lemma cnotPerm_invol : ∀ (c t : Fin 3), c ≠ t →
    ∀ i, cnotPerm c t (cnotPerm c t i) = i := by decide

lemma applyCNOT_eq_comp (c t : Fin 3) (v : QState) :
    applyCNOT c t v = fun i => v (cnotPerm c t i) := by
  funext i
  by_cases h : bit c i <;> simp [applyCNOT, cnotPerm, h]

lemma applyCNOT_normSqT {c t : Fin 3} (h : c ≠ t) (v : QState) :
    normSqT (applyCNOT c t v) = normSqT v := by
  rw [applyCNOT_eq_comp]
  unfold normSqT
  exact Equiv.sum_comp (Function.Involutive.toPerm _ (cnotPerm_invol c t h))
    (fun j => Complex.normSq (v j))

/-- Validity of a gate: a CNOT must have distinct control and target wires.
All gates occurring in the three circuits are valid. -/
def Gate.Valid : Gate → Prop
  | .cnot c t => c ≠ t
  | _ => True

lemma Gate.apply_normSqT (g : Gate) (hg : g.Valid) (v : QState) :
    normSqT (g.apply v) = normSqT v := by
  cases g with
  | had w => exact applySingle_normSqT unitary_H w v
  | rx θ w => exact applySingle_normSqT (unitary_RX θ) w v
  | ry θ w => exact applySingle_normSqT (unitary_RY θ) w v
  | rz θ w => exact applySingle_normSqT (unitary_RZ θ) w v
  | rot φ θ ω w =>
    show normSqT (applyRot φ θ ω w v) = normSqT v
    unfold applyRot applyRZ applyRY
    rw [applySingle_normSqT (unitary_RZ ω), applySingle_normSqT (unitary_RY θ),
      applySingle_normSqT (unitary_RZ φ)]
  | cnot c t => exact applyCNOT_normSqT hg v

lemma run_cons (g : Gate) (gs : List Gate) (v : QState) :
    run (g :: gs) v = run gs (g.apply v) := rfl

lemma run_nil (v : QState) : run [] v = v := rfl

lemma run_append (l1 l2 : List Gate) (v : QState) :
    run (l1 ++ l2) v = run l2 (run l1 v) := by
  unfold run
  exact List.foldl_append _ _ _ _

lemma run_normSqT : ∀ (gs : List Gate), (∀ g ∈ gs, g.Valid) → ∀ (v : QState),
    normSqT (run gs v) = normSqT v := by
  intro gs
  induction gs with
  | nil => intro _ v; rfl
  | cons g gs ih =>
    intro h v
    rw [run_cons, ih (fun g' hg' => h g' (List.mem_cons_of_mem g hg')),
      Gate.apply_normSqT g (h g (List.mem_cons_self g gs))]

lemma normSqT_init : normSqT init = 1 := by
  unfold normSqT
  rw [Finset.sum_eq_single_of_mem 0 (Finset.mem_univ 0)]
  · simp [init]
  · intro b _ hb; simp [init, hb]

lemma realC_valid {φ θ ω : ℝ} (g : Gate) (hg : g ∈ realC φ θ ω) : g.Valid := by
  simp only [realC, List.mem_cons, List.not_mem_nil, or_false] at hg
  rcases hg with rfl | rfl <;> trivial

lemma genC_valid {w : Fin 9 → ℝ} (g : Gate) (hg : g ∈ genC w) : g.Valid := by
  simp only [genC, List.mem_cons, List.not_mem_nil, or_false] at hg
  rcases hg with rfl | rfl | rfl | rfl | rfl | rfl | rfl | rfl | rfl | rfl | rfl <;>
    first | trivial | exact (by decide : (0 : Fin 3) ≠ 1)

lemma discC_valid {w : Fin 9 → ℝ} (g : Gate) (hg : g ∈ discC w) : g.Valid := by
  simp only [discC, List.mem_cons, List.not_mem_nil, or_false] at hg
  rcases hg with rfl | rfl | rfl | rfl | rfl | rfl | rfl | rfl | rfl | rfl | rfl <;>
    first | trivial | exact (by decide : (0 : Fin 3) ≠ 2)

/-! Expectation-value bounds -/

lemma expZ_le_normSqT (w : Fin 3) (v : QState) : expZ w v ≤ normSqT v := by
  unfold expZ normSqT
  refine Finset.sum_le_sum ?_
  intro i _
  unfold signZ
  by_cases h : bit w i <;> simp [h] <;>
    nlinarith [Complex.normSq_nonneg (v i)]

lemma neg_normSqT_le_expZ (w : Fin 3) (v : QState) : -normSqT v ≤ expZ w v := by
  unfold expZ normSqT
  rw [← Finset.sum_neg_distrib]
  refine Finset.sum_le_sum ?_
  intro i _
  unfold signZ
  by_cases h : bit w i <;> simp [h] <;>
    nlinarith [Complex.normSq_nonneg (v i)]

lemma expZ_init (w : Fin 3) : expZ w init = 1 := by
  unfold expZ
  rw [Finset.sum_eq_single_of_mem 0 (Finset.mem_univ 0)]
  · simp [init, signZ, bit_zero_idx]
  · intro b _ hb; simp [init, hb]

lemma expZ_applyRX_pi (w : Fin 3) : expZ w (applyRX Real.pi w init) = -1 := by
  have hst : ∀ i, applyRX Real.pi w init i = -Complex.I * init (flipB w i) := by
    intro i
    unfold applyRX applySingle
    rw [Real.cos_pi_div_two, Real.sin_pi_div_two]
    by_cases h : bit w i <;> simp [h]
  unfold expZ
  rw [Finset.sum_eq_single_of_mem (flipB w 0) (Finset.mem_univ _)]
  · rw [hst, flipB_flipB]
    simp [init, signZ, bit_flipB_self, bit_zero_idx, Complex.normSq_I]
  · intro b _ hb
    rw [hst]
    have hne : flipB w b ≠ 0 := by
      intro he
      apply hb
      rw [← flipB_flipB w b, he]
    simp [init, hne]

lemma circuit_normSqT (l1 l2 : List Gate) (h1 : ∀ g ∈ l1, g.Valid)
    (h2 : ∀ g ∈ l2, g.Valid) : normSqT (run (l1 ++ l2) init) = 1 := by
  have h : ∀ g ∈ l1 ++ l2, g.Valid := by
    intro g hg
    rcases List.mem_append.mp hg with h' | h'
    · exact h1 g h'
    · exact h2 g h'
  rw [run_normSqT _ h init, normSqT_init]

lemma real_disc_bounds (φa θa ωa : ℝ) (d : Fin 9 → ℝ) :
    -1 ≤ real_disc_circuit φa θa ωa d ∧ real_disc_circuit φa θa ωa d ≤ 1 := by
  have hn : normSqT (run (realC φa θa ωa ++ discC d) init) = 1 :=
    circuit_normSqT _ _ realC_valid discC_valid
  unfold real_disc_circuit
  constructor
  · have := neg_normSqT_le_expZ 2 (run (realC φa θa ωa ++ discC d) init)
    rw [hn] at this
    exact this
  · have := expZ_le_normSqT 2 (run (realC φa θa ωa ++ discC d) init)
    rw [hn] at this
    exact this

lemma gen_disc_bounds (g d : Fin 9 → ℝ) :
    -1 ≤ gen_disc_circuit g d ∧ gen_disc_circuit g d ≤ 1 := by
  have hn : normSqT (run (genC g ++ discC d) init) = 1 :=
    circuit_normSqT _ _ genC_valid discC_valid
  unfold gen_disc_circuit
  constructor
  · have := neg_normSqT_le_expZ 2 (run (genC g ++ discC d) init)
    rw [hn] at this
    exact this
  · have := expZ_le_normSqT 2 (run (genC g ++ discC d) init)
    rw [hn] at this
    exact this

/-! Claim theorems C1, C2, C3 -/

/-- C1: for every discriminator weight vector d (generator weights held fixed),
disc_cost equals P(real|fake) − P(real|real), where P(real|fake) is
(expZ on wire 2 after generator then discriminator from |000⟩, plus 1)/2 and
P(real|real) is the same with the real-data circuit in place of the generator. -/
theorem C1_disc_cost_formula (g d : Fin 9 → ℝ) :
    disc_cost g d =
      (expZ 2 (run (discC d) (run (genC g) init)) + 1) / 2 -
      (expZ 2 (run (discC d) (run (realC phi theta omega) init)) + 1) / 2 := by
  unfold disc_cost prob_fake_true prob_real_true gen_disc_circuit real_disc_circuit
  rw [run_append, run_append]

/-- C2: for every generator weight vector g (discriminator weights held fixed),
gen_cost equals −P(real|fake). -/
theorem C2_gen_cost_formula (g d : Fin 9 → ℝ) :
    gen_cost g d = -((expZ 2 (run (discC d) (run (genC g) init)) + 1) / 2) := by
  unfold gen_cost prob_fake_true gen_disc_circuit
  rw [run_append]

/-- C3: every sequence of gates drawn from the real, generator, and
discriminator circuits, applied to |000⟩, yields a state of 2-norm exactly 1. -/
theorem C3_norm_one (φa θa ωa : ℝ) (gw dw : Fin 9 → ℝ) (gs : List Gate)
    (h : ∀ g ∈ gs, g ∈ realC φa θa ωa ∨ g ∈ genC gw ∨ g ∈ discC dw) :
    Real.sqrt (normSqT (run gs init)) = 1 := by
  have hv : ∀ g ∈ gs, g.Valid := by
    intro g hg
    rcases h g hg with h' | h' | h'
    · exact realC_valid g h'
    · exact genC_valid g h'
    · exact discC_valid g h'
  rw [run_normSqT gs hv init, normSqT_init, Real.sqrt_one]

/-- Witness for C3: the generator circuit with all-zero weights. -/
theorem C3_norm_one_witness :
    (∀ g ∈ genC (fun _ => 0),
        g ∈ realC 0 0 0 ∨ g ∈ genC (fun _ => 0) ∨ g ∈ discC (fun _ => 0)) ∧
      Real.sqrt (normSqT (run (genC (fun _ => 0)) init)) = 1 :=
  ⟨fun _ hg => Or.inr (Or.inl hg),
   C3_norm_one 0 0 0 (fun _ => 0) (fun _ => 0) (genC (fun _ => 0))
     (fun _ hg => Or.inr (Or.inl hg))⟩

/-! Claims C5, C6, C9, C10 -/

/-- C5: a ControlledNot with control c and target t (c ≠ t) takes, at every
index with control bit 1, the amplitude from the index with target bit
flipped, leaves indices with control bit 0 unchanged, and is self-inverse. -/
theorem C5_cnot_behavior (c t : Fin 3) (hct : c ≠ t) (v : QState) (i : Fin 8) :
    (bit c i = true → applyCNOT c t v i = v (flipB t i)) ∧
    (bit c i = false → applyCNOT c t v i = v i) ∧
    applyCNOT c t (applyCNOT c t v) = v := by
  refine ⟨?_, ?_, ?_⟩
  · intro h; simp [applyCNOT, h]
  · intro h; simp [applyCNOT, h]
  · funext j
    by_cases h : bit c j
    · simp [applyCNOT, h, bit_flipB_ne c t _ hct, flipB_flipB]
    · simp [applyCNOT, h]

/-- Witness for C5: control 0, target 1, state |000⟩, index 0. -/
theorem C5_cnot_behavior_witness :
    ((0 : Fin 3) ≠ 1) ∧
    ((bit 0 0 = true → applyCNOT 0 1 init 0 = init (flipB 1 0)) ∧
     (bit 0 0 = false → applyCNOT 0 1 init 0 = init 0) ∧
     applyCNOT 0 1 (applyCNOT 0 1 init) = init) :=
  ⟨by decide, C5_cnot_behavior 0 1 (by decide) init 0⟩

/-- C6: on any unit-norm state, the Pauli-Z expectation on any wire lies in
[-1,1]; it equals 1 on |000⟩ and -1 on the state RotationX(π)|000⟩. -/
theorem C6_expZ_range (w : Fin 3) (v : QState) (hv : normSqT v = 1) :
    (-1 ≤ expZ w v ∧ expZ w v ≤ 1) ∧
    expZ w init = 1 ∧ expZ w (applyRX Real.pi w init) = -1 := by
  refine ⟨⟨?_, ?_⟩, expZ_init w, expZ_applyRX_pi w⟩
  · have := neg_normSqT_le_expZ w v
    rw [hv] at this
    exact this
  · have := expZ_le_normSqT w v
    rw [hv] at this
    exact this

/-- Witness for C6: wire 0 and the state |000⟩. -/
theorem C6_expZ_range_witness :
    normSqT init = 1 ∧
    ((-1 ≤ expZ 0 init ∧ expZ 0 init ≤ 1) ∧
     expZ 0 init = 1 ∧ expZ 0 (applyRX Real.pi 0 init) = -1) :=
  ⟨normSqT_init, C6_expZ_range 0 init normSqT_init⟩

/-- C9: the two classification probabilities lie in [0,1], disc_cost lies in
[-1,1] and gen_cost lies in [-1,0], for all weight vectors. -/
theorem C9_cost_ranges (g d : Fin 9 → ℝ) :
    (0 ≤ prob_real_true d ∧ prob_real_true d ≤ 1) ∧
    (0 ≤ prob_fake_true g d ∧ prob_fake_true g d ≤ 1) ∧
    (-1 ≤ disc_cost g d ∧ disc_cost g d ≤ 1) ∧
    (-1 ≤ gen_cost g d ∧ gen_cost g d ≤ 0) := by
  obtain ⟨hr1, hr2⟩ := real_disc_bounds phi theta omega d
  obtain ⟨hg1, hg2⟩ := gen_disc_bounds g d
  unfold disc_cost gen_cost prob_fake_true prob_real_true
  refine ⟨⟨?_, ?_⟩, ⟨?_, ?_⟩, ⟨?_, ?_⟩, ⟨?_, ?_⟩⟩ <;> linarith

/-- States supported on wires-1-and-2-zero basis indices. -/
def support04 (v : QState) : Prop :=
  ∀ i, (bit 1 i = true ∨ bit 2 i = true) → v i = 0

lemma support04_applySingle (a b c d : ℂ) (v : QState) (h : support04 v) :
    support04 (applySingle a b c d 0 v) := by
  intro i hi
  have h2 : v (flipB 0 i) = 0 := by
    apply h
    rcases hi with hh | hh
    · left; rw [bit_flipB_ne 1 0 i (by decide)]; exact hh
    · right; rw [bit_flipB_ne 2 0 i (by decide)]; exact hh
  have h1 : v i = 0 := h i hi
  unfold applySingle
  by_cases hb : bit 0 i <;> simp [hb, h1, h2]

lemma support04_init : support04 init := by
  intro i hi
  have hne : i ≠ 0 := by
    rintro rfl
    revert hi
    decide
  simp [init, hne]

/-- C10: the real-data circuit acts only on wire 0, so from |000⟩ every
amplitude at a basis index whose wire-1 or wire-2 bit is set is exactly 0. -/
theorem C10_real_leaves_wires (φa θa ωa : ℝ) (i : Fin 8)
    (hi : bit 1 i = true ∨ bit 2 i = true) :
    run (realC φa θa ωa) init i = 0 := by
  have hsup : support04 (run (realC φa θa ωa) init) := by
    show support04 (applyRZ ωa 0 (applyRY θa 0 (applyRZ φa 0 (applyH 0 init))))
    exact support04_applySingle _ _ _ _ _ (support04_applySingle _ _ _ _ _
      (support04_applySingle _ _ _ _ _ (support04_applySingle _ _ _ _ _ support04_init)))
  exact hsup i hi

/-- Witness for C10: angles 0 and basis index 1 (wire-2 bit set). -/
theorem C10_real_leaves_wires_witness :
    (bit 1 (1 : Fin 8) = true ∨ bit 2 (1 : Fin 8) = true) ∧
    run (realC 0 0 0) init 1 = 0 :=
  ⟨Or.inr (by decide), C10_real_leaves_wires 0 0 0 1 (Or.inr (by decide))⟩

/-! Claim C7: the training loop -/

/-- Training state: generator weights and discriminator weights. -/
abbrev TrainState := (Fin 9 → ℝ) × (Fin 9 → ℝ)

/-- Gradient of disc_cost in the discriminator weights (exact, via the
parameter-shift value, which equals the true partial derivative). -/
noncomputable def gradD (g d : Fin 9 → ℝ) : Fin 9 → ℝ := fun i =>
  (disc_cost g (Function.update d i (d i + Real.pi / 2)) -
   disc_cost g (Function.update d i (d i - Real.pi / 2))) / 2

/-- One SGD step (learning rate 0.4) on the discriminator weights. -/
noncomputable def discStep (g d : Fin 9 → ℝ) : Fin 9 → ℝ := fun i =>
  d i - 0.4 * gradD g d i

/-- Gradient of gen_cost in the generator weights. -/
noncomputable def gradG (g d : Fin 9 → ℝ) : Fin 9 → ℝ := fun i =>
  (gen_cost (Function.update g i (g i + Real.pi / 2)) d -
   gen_cost (Function.update g i (g i - Real.pi / 2)) d) / 2

/-- One SGD step (learning rate 0.4) on the generator weights. -/
noncomputable def genStep (g d : Fin 9 → ℝ) : Fin 9 → ℝ := fun i =>
  g i - 0.4 * gradG g d i

/-- One Phase-D iteration: update only the discriminator weights. -/
noncomputable def phaseD (ts : TrainState) : TrainState := (ts.1, discStep ts.1 ts.2)

/-- One Phase-G iteration: update only the generator weights. -/
noncomputable def phaseG (ts : TrainState) : TrainState := (genStep ts.1 ts.2, ts.2)

/-- The training loop of the program: 50 Phase-D steps, then 50 Phase-G steps,
one single alternation. -/
noncomputable def train (ts : TrainState) : TrainState := phaseG^[50] (phaseD^[50] ts)

lemma phaseD_iterate_fst : ∀ (n : ℕ) (ts : TrainState), (phaseD^[n] ts).1 = ts.1 := by
  intro n
  induction n with
  | zero => intro ts; rfl
  | succ n ih =>
    intro ts
    rw [Function.iterate_succ_apply, ih]
    rfl

lemma phaseG_iterate_snd : ∀ (m : ℕ) (ts : TrainState), (phaseG^[m] ts).2 = ts.2 := by
  intro m
  induction m with
  | zero => intro ts; rfl
  | succ m ih =>
    intro ts
    rw [Function.iterate_succ_apply, ih]
    rfl

/-- C7: the loop performs 50 Phase-D iterations that never change the
generator weights, then unconditionally 50 Phase-G iterations that never
change the discriminator weights (left at their Phase-D final values);
exactly one D/G alternation. -/
theorem C7_training_loop (ts : TrainState) (n m : ℕ) :
    ((phaseD^[n]) ts).1 = ts.1 ∧
    ((phaseG^[m]) ((phaseD^[50]) ts)).2 = ((phaseD^[50]) ts).2 ∧
    train ts = (phaseG^[50]) ((phaseD^[50]) ts) :=
  ⟨phaseD_iterate_fst n ts, phaseG_iterate_snd m _, rfl⟩

/-! Claim C4: the parameter-shift rule -/

lemma applySingle_add_smul (a b c d : ℂ) (w : Fin 3) (x y : ℝ) (A B : QState) :
    applySingle a b c d w (x • A + y • B) =
      x • applySingle a b c d w A + y • applySingle a b c d w B := by
  funext i
  by_cases h : bit w i <;> simp [applySingle, h, Complex.real_smul] <;> ring

lemma applyCNOT_add_smul (c t : Fin 3) (x y : ℝ) (A B : QState) :
    applyCNOT c t (x • A + y • B) = x • applyCNOT c t A + y • applyCNOT c t B := by
  funext i
  by_cases h : bit c i <;> simp [applyCNOT, h, Complex.real_smul]

lemma Gate.apply_add_smul (g : Gate) (x y : ℝ) (A B : QState) :
    g.apply (x • A + y • B) = x • g.apply A + y • g.apply B := by
  cases g with
  | had w => exact applySingle_add_smul _ _ _ _ w x y A B
  | rx θ w => exact applySingle_add_smul _ _ _ _ w x y A B
  | ry θ w => exact applySingle_add_smul _ _ _ _ w x y A B
  | rz θ w => exact applySingle_add_smul _ _ _ _ w x y A B
  | rot φ θ ω w =>
    show applyRot φ θ ω w (x • A + y • B) = _
    unfold applyRot applyRZ applyRY
    rw [applySingle_add_smul, applySingle_add_smul, applySingle_add_smul]
    rfl
  | cnot c t => exact applyCNOT_add_smul c t x y A B

lemma run_add_smul : ∀ (gs : List Gate) (x y : ℝ) (A B : QState),
    run gs (x • A + y • B) = x • run gs A + y • run gs B := by
  intro gs
  induction gs with
  | nil => intro x y A B; rfl
  | cons g gs ih =>
    intro x y A B
    rw [run_cons, Gate.apply_add_smul, ih, run_cons, run_cons]

/-- Interference term between two states under the Pauli-Z observable. -/
noncomputable def crossZ (w : Fin 3) (A B : QState) : ℝ :=
  ∑ i, signZ w i * (A i * conj (B i)).re

lemma expZ_comb (w : Fin 3) (x y : ℝ) (A B : QState) :
    expZ w (x • A + y • B) =
      x ^ 2 * expZ w A + y ^ 2 * expZ w B + 2 * x * y * crossZ w A B := by
  unfold expZ crossZ
  rw [Finset.mul_sum, Finset.mul_sum, Finset.mul_sum, ← Finset.sum_add_distrib,
    ← Finset.sum_add_distrib]
  refine Finset.sum_congr rfl ?_
  intro i _
  have hv : (x • A + y • B) i = (x : ℂ) * A i + (y : ℂ) * B i := by
    simp [Complex.real_smul]
  rw [hv, Complex.normSq_add, Complex.normSq_mul, Complex.normSq_mul,
    Complex.normSq_ofReal, Complex.normSq_ofReal]
  have hc : ((x : ℂ) * A i * conj ((y : ℂ) * B i)).re = x * y * (A i * conj (B i)).re := by
    rw [map_mul, Complex.conj_ofReal]
    have he : (x : ℂ) * A i * ((y : ℂ) * conj (B i)) =
        ((x * y : ℝ) : ℂ) * (A i * conj (B i)) := by
      push_cast
      ring
    rw [he, Complex.re_ofReal_mul]
  rw [hc]
  ring

/-- Residual map of RX: multiplication by -i and a bit flip on wire `w`. -/
noncomputable def rxAux (w : Fin 3) (v : QState) : QState := fun i =>
  -Complex.I * v (flipB w i)

lemma applyRX_decomp (θ : ℝ) (w : Fin 3) (v : QState) :
    applyRX θ w v = Real.cos (θ / 2) • v + Real.sin (θ / 2) • rxAux w v := by
  funext i
  by_cases h : bit w i <;> simp [applyRX, applySingle, rxAux, h, Complex.real_smul] <;> ring

/-- Residual map of RY: signed bit flip on wire `w`. -/
noncomputable def ryAux (w : Fin 3) (v : QState) : QState := fun i =>
  if bit w i then v (flipB w i) else -v (flipB w i)

lemma applyRY_decomp (θ : ℝ) (w : Fin 3) (v : QState) :
    applyRY θ w v = Real.cos (θ / 2) • v + Real.sin (θ / 2) • ryAux w v := by
  funext i
  by_cases h : bit w i <;> simp [applyRY, applySingle, ryAux, h, Complex.real_smul] <;> ring

/-- Residual map of RZ: multiplication by ±i depending on the wire-`w` bit. -/
noncomputable def rzAux (w : Fin 3) (v : QState) : QState := fun i =>
  if bit w i then Complex.I * v i else -Complex.I * v i

lemma exp_negI_eq (r : ℝ) :
    Complex.exp (((-r : ℝ) : ℂ) * Complex.I) =
      ((Real.cos r : ℝ) : ℂ) - ((Real.sin r : ℝ) : ℂ) * Complex.I := by
  rw [Complex.exp_mul_I]
  push_cast
  rw [Complex.cos_neg, Complex.sin_neg]
  ring

lemma exp_posI_eq (r : ℝ) :
    Complex.exp (((r : ℝ) : ℂ) * Complex.I) =
      ((Real.cos r : ℝ) : ℂ) + ((Real.sin r : ℝ) : ℂ) * Complex.I := by
  rw [Complex.exp_mul_I]
  push_cast
  ring

lemma applyRZ_decomp (θ : ℝ) (w : Fin 3) (v : QState) :
    applyRZ θ w v = Real.cos (θ / 2) • v + Real.sin (θ / 2) • rzAux w v := by
  funext i
  unfold applyRZ applySingle rzAux
  rw [exp_negI_eq, exp_posI_eq]
  by_cases h : bit w i <;> simp [h, Complex.real_smul] <;> ring

lemma hasDerivAt_sinusoid (A B C t : ℝ) :
    HasDerivAt (fun θ => A + B * Real.cos θ + C * Real.sin θ)
      (-B * Real.sin t + C * Real.cos t) t := by
  have h1 := (Real.hasDerivAt_cos t).const_mul B
  have h2 := (Real.hasDerivAt_sin t).const_mul C
  have h3 := ((hasDerivAt_const t A).add h1).add h2
  convert h3 using 1
  ring

lemma paramshift_of_sinusoid {f : ℝ → ℝ} {A B C : ℝ}
    (h : ∀ θ, f θ = A + B * Real.cos θ + C * Real.sin θ) (t : ℝ) :
    HasDerivAt f ((f (t + Real.pi / 2) - f (t - Real.pi / 2)) / 2) t := by
  have hf : f = fun θ => A + B * Real.cos θ + C * Real.sin θ := funext h
  have hval : (f (t + Real.pi / 2) - f (t - Real.pi / 2)) / 2 =
      -B * Real.sin t + C * Real.cos t := by
    rw [h, h, Real.cos_add_pi_div_two, Real.sin_add_pi_div_two,
      Real.cos_sub_pi_div_two, Real.sin_sub_pi_div_two]
    ring
  rw [hval, hf]
  exact hasDerivAt_sinusoid A B C t

lemma paramshift_decomp (F : ℝ → QState) (V W : QState)
    (hF : ∀ θ, F θ = Real.cos (θ / 2) • V + Real.sin (θ / 2) • W)
    (post : List Gate) (t : ℝ) :
    HasDerivAt (fun x => expZ 2 (run post (F x)))
      ((expZ 2 (run post (F (t + Real.pi / 2))) -
        expZ 2 (run post (F (t - Real.pi / 2)))) / 2) t := by
  have hform : ∀ θ, expZ 2 (run post (F θ)) =
      (expZ 2 (run post V) + expZ 2 (run post W)) / 2 +
      ((expZ 2 (run post V) - expZ 2 (run post W)) / 2) * Real.cos θ +
      crossZ 2 (run post V) (run post W) * Real.sin θ := by
    intro θ
    rw [hF θ, run_add_smul, expZ_comb]
    have hcos : Real.cos (θ / 2) ^ 2 = 1 / 2 + Real.cos θ / 2 := by
      have h2 := Real.cos_sq (θ / 2)
      rwa [show 2 * (θ / 2) = θ by ring] at h2
    have hsin : Real.sin (θ / 2) ^ 2 = 1 / 2 - Real.cos θ / 2 := by
      rw [Real.sin_sq, hcos]
      ring
    have hcs : 2 * Real.sin (θ / 2) * Real.cos (θ / 2) = Real.sin θ := by
      have h2 := Real.sin_two_mul (θ / 2)
      rw [show 2 * (θ / 2) = θ by ring] at h2
      linarith
    rw [hcos, hsin]
    linear_combination crossZ 2 (run post V) (run post W) * hcs
  exact paramshift_of_sinusoid hform t

lemma paramshift_rx (pre post : List Gate) (w : Fin 3) (t : ℝ) :
    HasDerivAt (fun x => expZ 2 (run post (applyRX x w (run pre init))))
      ((expZ 2 (run post (applyRX (t + Real.pi / 2) w (run pre init))) -
        expZ 2 (run post (applyRX (t - Real.pi / 2) w (run pre init)))) / 2) t :=
  paramshift_decomp (fun x => applyRX x w (run pre init)) _ _
    (fun θ => applyRX_decomp θ w (run pre init)) post t

lemma paramshift_ry (pre post : List Gate) (w : Fin 3) (t : ℝ) :
    HasDerivAt (fun x => expZ 2 (run post (applyRY x w (run pre init))))
      ((expZ 2 (run post (applyRY (t + Real.pi / 2) w (run pre init))) -
        expZ 2 (run post (applyRY (t - Real.pi / 2) w (run pre init)))) / 2) t :=
  paramshift_decomp (fun x => applyRY x w (run pre init)) _ _
    (fun θ => applyRY_decomp θ w (run pre init)) post t

lemma paramshift_rz (pre post : List Gate) (w : Fin 3) (t : ℝ) :
    HasDerivAt (fun x => expZ 2 (run post (applyRZ x w (run pre init))))
      ((expZ 2 (run post (applyRZ (t + Real.pi / 2) w (run pre init))) -
        expZ 2 (run post (applyRZ (t - Real.pi / 2) w (run pre init)))) / 2) t :=
  paramshift_decomp (fun x => applyRZ x w (run pre init)) _ _
    (fun θ => applyRZ_decomp θ w (run pre init)) post t

lemma fin9_cases : ∀ i : Fin 9, i = 0 ∨ i = 1 ∨ i = 2 ∨ i = 3 ∨ i = 4 ∨ i = 5 ∨
    i = 6 ∨ i = 7 ∨ i = 8 := by decide

set_option maxHeartbeats 1000000 in
lemma rdc_shift (φa θa ωa : ℝ) (d : Fin 9 → ℝ) (i : Fin 9) :
    HasDerivAt (fun x => real_disc_circuit φa θa ωa (Function.update d i x))
      ((real_disc_circuit φa θa ωa (Function.update d i (d i + Real.pi / 2)) -
        real_disc_circuit φa θa ωa (Function.update d i (d i - Real.pi / 2))) / 2)
      (d i) := by
  rcases fin9_cases i with rfl | rfl | rfl | rfl | rfl | rfl | rfl | rfl | rfl
  · have h : ∀ x : ℝ, real_disc_circuit φa θa ωa (Function.update d 0 x) =
        expZ 2 (run [.rx (d 1) 2, .ry (d 2) 0, .ry (d 3) 2, .rz (d 4) 0, .rz (d 5) 2, .cnot 0 2, .rx (d 6) 2, .ry (d 7) 2, .rz (d 8) 2]
          (applyRX x 0 (run [.had 0, .rot φa θa ωa 0, .had 0] init))) := by
      intro x
      simp only [real_disc_circuit, gen_disc_circuit, realC, genC, discC,
        List.cons_append, List.nil_append, run_cons, run_nil, Gate.apply,
        Function.update_apply]
      simp
    simp only [h]
    exact paramshift_rx _ _ 0 (d 0)
  · have h : ∀ x : ℝ, real_disc_circuit φa θa ωa (Function.update d 1 x) =
        expZ 2 (run [.ry (d 2) 0, .ry (d 3) 2, .rz (d 4) 0, .rz (d 5) 2, .cnot 0 2, .rx (d 6) 2, .ry (d 7) 2, .rz (d 8) 2]
          (applyRX x 2 (run [.had 0, .rot φa θa ωa 0, .had 0, .rx (d 0) 0] init))) := by
      intro x
      simp only [real_disc_circuit, gen_disc_circuit, realC, genC, discC,
        List.cons_append, List.nil_append, run_cons, run_nil, Gate.apply,
        Function.update_apply]
      simp
    simp only [h]
    exact paramshift_rx _ _ 2 (d 1)
  · have h : ∀ x : ℝ, real_disc_circuit φa θa ωa (Function.update d 2 x) =
        expZ 2 (run [.ry (d 3) 2, .rz (d 4) 0, .rz (d 5) 2, .cnot 0 2, .rx (d 6) 2, .ry (d 7) 2, .rz (d 8) 2]
          (applyRY x 0 (run [.had 0, .rot φa θa ωa 0, .had 0, .rx (d 0) 0, .rx (d 1) 2] init))) := by
      intro x
      simp only [real_disc_circuit, gen_disc_circuit, realC, genC, discC,
        List.cons_append, List.nil_append, run_cons, run_nil, Gate.apply,
        Function.update_apply]
      simp
    simp only [h]
    exact paramshift_ry _ _ 0 (d 2)
  · have h : ∀ x : ℝ, real_disc_circuit φa θa ωa (Function.update d 3 x) =
        expZ 2 (run [.rz (d 4) 0, .rz (d 5) 2, .cnot 0 2, .rx (d 6) 2, .ry (d 7) 2, .rz (d 8) 2]
          (applyRY x 2 (run [.had 0, .rot φa θa ωa 0, .had 0, .rx (d 0) 0, .rx (d 1) 2, .ry (d 2) 0] init))) := by
      intro x
      simp only [real_disc_circuit, gen_disc_circuit, realC, genC, discC,
        List.cons_append, List.nil_append, run_cons, run_nil, Gate.apply,
        Function.update_apply]
      simp
    simp only [h]
    exact paramshift_ry _ _ 2 (d 3)
  · have h : ∀ x : ℝ, real_disc_circuit φa θa ωa (Function.update d 4 x) =
        expZ 2 (run [.rz (d 5) 2, .cnot 0 2, .rx (d 6) 2, .ry (d 7) 2, .rz (d 8) 2]
          (applyRZ x 0 (run [.had 0, .rot φa θa ωa 0, .had 0, .rx (d 0) 0, .rx (d 1) 2, .ry (d 2) 0, .ry (d 3) 2] init))) := by
      intro x
      simp only [real_disc_circuit, gen_disc_circuit, realC, genC, discC,
        List.cons_append, List.nil_append, run_cons, run_nil, Gate.apply,
        Function.update_apply]
      simp
    simp only [h]
    exact paramshift_rz _ _ 0 (d 4)
  · have h : ∀ x : ℝ, real_disc_circuit φa θa ωa (Function.update d 5 x) =
        expZ 2 (run [.cnot 0 2, .rx (d 6) 2, .ry (d 7) 2, .rz (d 8) 2]
          (applyRZ x 2 (run [.had 0, .rot φa θa ωa 0, .had 0, .rx (d 0) 0, .rx (d 1) 2, .ry (d 2) 0, .ry (d 3) 2, .rz (d 4) 0] init))) := by
      intro x
      simp only [real_disc_circuit, gen_disc_circuit, realC, genC, discC,
        List.cons_append, List.nil_append, run_cons, run_nil, Gate.apply,
        Function.update_apply]
      simp
    simp only [h]
    exact paramshift_rz _ _ 2 (d 5)
  · have h : ∀ x : ℝ, real_disc_circuit φa θa ωa (Function.update d 6 x) =
        expZ 2 (run [.ry (d 7) 2, .rz (d 8) 2]
          (applyRX x 2 (run [.had 0, .rot φa θa ωa 0, .had 0, .rx (d 0) 0, .rx (d 1) 2, .ry (d 2) 0, .ry (d 3) 2, .rz (d 4) 0, .rz (d 5) 2, .cnot 0 2] init))) := by
      intro x
      simp only [real_disc_circuit, gen_disc_circuit, realC, genC, discC,
        List.cons_append, List.nil_append, run_cons, run_nil, Gate.apply,
        Function.update_apply]
      simp
    simp only [h]
    exact paramshift_rx _ _ 2 (d 6)
  · have h : ∀ x : ℝ, real_disc_circuit φa θa ωa (Function.update d 7 x) =
        expZ 2 (run [.rz (d 8) 2]
          (applyRY x 2 (run [.had 0, .rot φa θa ωa 0, .had 0, .rx (d 0) 0, .rx (d 1) 2, .ry (d 2) 0, .ry (d 3) 2, .rz (d 4) 0, .rz (d 5) 2, .cnot 0 2, .rx (d 6) 2] init))) := by
      intro x
      simp only [real_disc_circuit, gen_disc_circuit, realC, genC, discC,
        List.cons_append, List.nil_append, run_cons, run_nil, Gate.apply,
        Function.update_apply]
      simp
    simp only [h]
    exact paramshift_ry _ _ 2 (d 7)
  · have h : ∀ x : ℝ, real_disc_circuit φa θa ωa (Function.update d 8 x) =
        expZ 2 (run []
          (applyRZ x 2 (run [.had 0, .rot φa θa ωa 0, .had 0, .rx (d 0) 0, .rx (d 1) 2, .ry (d 2) 0, .ry (d 3) 2, .rz (d 4) 0, .rz (d 5) 2, .cnot 0 2, .rx (d 6) 2, .ry (d 7) 2] init))) := by
      intro x
      simp only [real_disc_circuit, gen_disc_circuit, realC, genC, discC,
        List.cons_append, List.nil_append, run_cons, run_nil, Gate.apply,
        Function.update_apply]
      simp
    simp only [h]
    exact paramshift_rz _ _ 2 (d 8)

set_option maxHeartbeats 1000000 in
lemma gdc_shift_gen (g d : Fin 9 → ℝ) (i : Fin 9) :
    HasDerivAt (fun x => gen_disc_circuit (Function.update g i x) d)
      ((gen_disc_circuit (Function.update g i (g i + Real.pi / 2)) d -
        gen_disc_circuit (Function.update g i (g i - Real.pi / 2)) d) / 2)
      (g i) := by
  rcases fin9_cases i with rfl | rfl | rfl | rfl | rfl | rfl | rfl | rfl | rfl
  · have h : ∀ x : ℝ, gen_disc_circuit (Function.update g 0 x) d =
        expZ 2 (run [.rx (g 1) 1, .ry (g 2) 0, .ry (g 3) 1, .rz (g 4) 0, .rz (g 5) 1, .cnot 0 1, .rx (g 6) 0, .ry (g 7) 0, .rz (g 8) 0, .had 0, .rx (d 0) 0, .rx (d 1) 2, .ry (d 2) 0, .ry (d 3) 2, .rz (d 4) 0, .rz (d 5) 2, .cnot 0 2, .rx (d 6) 2, .ry (d 7) 2, .rz (d 8) 2]
          (applyRX x 0 (run [.had 0] init))) := by
      intro x
      simp only [real_disc_circuit, gen_disc_circuit, realC, genC, discC,
        List.cons_append, List.nil_append, run_cons, run_nil, Gate.apply,
        Function.update_apply]
      simp
    simp only [h]
    exact paramshift_rx _ _ 0 (g 0)
  · have h : ∀ x : ℝ, gen_disc_circuit (Function.update g 1 x) d =
        expZ 2 (run [.ry (g 2) 0, .ry (g 3) 1, .rz (g 4) 0, .rz (g 5) 1, .cnot 0 1, .rx (g 6) 0, .ry (g 7) 0, .rz (g 8) 0, .had 0, .rx (d 0) 0, .rx (d 1) 2, .ry (d 2) 0, .ry (d 3) 2, .rz (d 4) 0, .rz (d 5) 2, .cnot 0 2, .rx (d 6) 2, .ry (d 7) 2, .rz (d 8) 2]
          (applyRX x 1 (run [.had 0, .rx (g 0) 0] init))) := by
      intro x
      simp only [real_disc_circuit, gen_disc_circuit, realC, genC, discC,
        List.cons_append, List.nil_append, run_cons, run_nil, Gate.apply,
        Function.update_apply]
      simp
    simp only [h]
    exact paramshift_rx _ _ 1 (g 1)
  · have h : ∀ x : ℝ, gen_disc_circuit (Function.update g 2 x) d =
        expZ 2 (run [.ry (g 3) 1, .rz (g 4) 0, .rz (g 5) 1, .cnot 0 1, .rx (g 6) 0, .ry (g 7) 0, .rz (g 8) 0, .had 0, .rx (d 0) 0, .rx (d 1) 2, .ry (d 2) 0, .ry (d 3) 2, .rz (d 4) 0, .rz (d 5) 2, .cnot 0 2, .rx (d 6) 2, .ry (d 7) 2, .rz (d 8) 2]
          (applyRY x 0 (run [.had 0, .rx (g 0) 0, .rx (g 1) 1] init))) := by
      intro x
      simp only [real_disc_circuit, gen_disc_circuit, realC, genC, discC,
        List.cons_append, List.nil_append, run_cons, run_nil, Gate.apply,
        Function.update_apply]
      simp
    simp only [h]
    exact paramshift_ry _ _ 0 (g 2)
  · have h : ∀ x : ℝ, gen_disc_circuit (Function.update g 3 x) d =
        expZ 2 (run [.rz (g 4) 0, .rz (g 5) 1, .cnot 0 1, .rx (g 6) 0, .ry (g 7) 0, .rz (g 8) 0, .had 0, .rx (d 0) 0, .rx (d 1) 2, .ry (d 2) 0, .ry (d 3) 2, .rz (d 4) 0, .rz (d 5) 2, .cnot 0 2, .rx (d 6) 2, .ry (d 7) 2, .rz (d 8) 2]
          (applyRY x 1 (run [.had 0, .rx (g 0) 0, .rx (g 1) 1, .ry (g 2) 0] init))) := by
      intro x
      simp only [real_disc_circuit, gen_disc_circuit, realC, genC, discC,
        List.cons_append, List.nil_append, run_cons, run_nil, Gate.apply,
        Function.update_apply]
      simp
    simp only [h]
    exact paramshift_ry _ _ 1 (g 3)
  · have h : ∀ x : ℝ, gen_disc_circuit (Function.update g 4 x) d =
        expZ 2 (run [.rz (g 5) 1, .cnot 0 1, .rx (g 6) 0, .ry (g 7) 0, .rz (g 8) 0, .had 0, .rx (d 0) 0, .rx (d 1) 2, .ry (d 2) 0, .ry (d 3) 2, .rz (d 4) 0, .rz (d 5) 2, .cnot 0 2, .rx (d 6) 2, .ry (d 7) 2, .rz (d 8) 2]
          (applyRZ x 0 (run [.had 0, .rx (g 0) 0, .rx (g 1) 1, .ry (g 2) 0, .ry (g 3) 1] init))) := by
      intro x
      simp only [real_disc_circuit, gen_disc_circuit, realC, genC, discC,
        List.cons_append, List.nil_append, run_cons, run_nil, Gate.apply,
        Function.update_apply]
      simp
    simp only [h]
    exact paramshift_rz _ _ 0 (g 4)
  · have h : ∀ x : ℝ, gen_disc_circuit (Function.update g 5 x) d =
        expZ 2 (run [.cnot 0 1, .rx (g 6) 0, .ry (g 7) 0, .rz (g 8) 0, .had 0, .rx (d 0) 0, .rx (d 1) 2, .ry (d 2) 0, .ry (d 3) 2, .rz (d 4) 0, .rz (d 5) 2, .cnot 0 2, .rx (d 6) 2, .ry (d 7) 2, .rz (d 8) 2]
          (applyRZ x 1 (run [.had 0, .rx (g 0) 0, .rx (g 1) 1, .ry (g 2) 0, .ry (g 3) 1, .rz (g 4) 0] init))) := by
      intro x
      simp only [real_disc_circuit, gen_disc_circuit, realC, genC, discC,
        List.cons_append, List.nil_append, run_cons, run_nil, Gate.apply,
        Function.update_apply]
      simp
    simp only [h]
    exact paramshift_rz _ _ 1 (g 5)
  · have h : ∀ x : ℝ, gen_disc_circuit (Function.update g 6 x) d =
        expZ 2 (run [.ry (g 7) 0, .rz (g 8) 0, .had 0, .rx (d 0) 0, .rx (d 1) 2, .ry (d 2) 0, .ry (d 3) 2, .rz (d 4) 0, .rz (d 5) 2, .cnot 0 2, .rx (d 6) 2, .ry (d 7) 2, .rz (d 8) 2]
          (applyRX x 0 (run [.had 0, .rx (g 0) 0, .rx (g 1) 1, .ry (g 2) 0, .ry (g 3) 1, .rz (g 4) 0, .rz (g 5) 1, .cnot 0 1] init))) := by
      intro x
      simp only [real_disc_circuit, gen_disc_circuit, realC, genC, discC,
        List.cons_append, List.nil_append, run_cons, run_nil, Gate.apply,
        Function.update_apply]
      simp
    simp only [h]
    exact paramshift_rx _ _ 0 (g 6)
  · have h : ∀ x : ℝ, gen_disc_circuit (Function.update g 7 x) d =
        expZ 2 (run [.rz (g 8) 0, .had 0, .rx (d 0) 0, .rx (d 1) 2, .ry (d 2) 0, .ry (d 3) 2, .rz (d 4) 0, .rz (d 5) 2, .cnot 0 2, .rx (d 6) 2, .ry (d 7) 2, .rz (d 8) 2]
          (applyRY x 0 (run [.had 0, .rx (g 0) 0, .rx (g 1) 1, .ry (g 2) 0, .ry (g 3) 1, .rz (g 4) 0, .rz (g 5) 1, .cnot 0 1, .rx (g 6) 0] init))) := by
      intro x
      simp only [real_disc_circuit, gen_disc_circuit, realC, genC, discC,
        List.cons_append, List.nil_append, run_cons, run_nil, Gate.apply,
        Function.update_apply]
      simp
    simp only [h]
    exact paramshift_ry _ _ 0 (g 7)
  · have h : ∀ x : ℝ, gen_disc_circuit (Function.update g 8 x) d =
        expZ 2 (run [.had 0, .rx (d 0) 0, .rx (d 1) 2, .ry (d 2) 0, .ry (d 3) 2, .rz (d 4) 0, .rz (d 5) 2, .cnot 0 2, .rx (d 6) 2, .ry (d 7) 2, .rz (d 8) 2]
          (applyRZ x 0 (run [.had 0, .rx (g 0) 0, .rx (g 1) 1, .ry (g 2) 0, .ry (g 3) 1, .rz (g 4) 0, .rz (g 5) 1, .cnot 0 1, .rx (g 6) 0, .ry (g 7) 0] init))) := by
      intro x
      simp only [real_disc_circuit, gen_disc_circuit, realC, genC, discC,
        List.cons_append, List.nil_append, run_cons, run_nil, Gate.apply,
        Function.update_apply]
      simp
    simp only [h]
    exact paramshift_rz _ _ 0 (g 8)

set_option maxHeartbeats 1000000 in
lemma gdc_shift_disc (g d : Fin 9 → ℝ) (i : Fin 9) :
    HasDerivAt (fun x => gen_disc_circuit g (Function.update d i x))
      ((gen_disc_circuit g (Function.update d i (d i + Real.pi / 2)) -
        gen_disc_circuit g (Function.update d i (d i - Real.pi / 2))) / 2)
      (d i) := by
  rcases fin9_cases i with rfl | rfl | rfl | rfl | rfl | rfl | rfl | rfl | rfl
  · have h : ∀ x : ℝ, gen_disc_circuit g (Function.update d 0 x) =
        expZ 2 (run [.rx (d 1) 2, .ry (d 2) 0, .ry (d 3) 2, .rz (d 4) 0, .rz (d 5) 2, .cnot 0 2, .rx (d 6) 2, .ry (d 7) 2, .rz (d 8) 2]
          (applyRX x 0 (run [.had 0, .rx (g 0) 0, .rx (g 1) 1, .ry (g 2) 0, .ry (g 3) 1, .rz (g 4) 0, .rz (g 5) 1, .cnot 0 1, .rx (g 6) 0, .ry (g 7) 0, .rz (g 8) 0, .had 0] init))) := by
      intro x
      simp only [real_disc_circuit, gen_disc_circuit, realC, genC, discC,
        List.cons_append, List.nil_append, run_cons, run_nil, Gate.apply,
        Function.update_apply]
      simp
    simp only [h]
    exact paramshift_rx _ _ 0 (d 0)
  · have h : ∀ x : ℝ, gen_disc_circuit g (Function.update d 1 x) =
        expZ 2 (run [.ry (d 2) 0, .ry (d 3) 2, .rz (d 4) 0, .rz (d 5) 2, .cnot 0 2, .rx (d 6) 2, .ry (d 7) 2, .rz (d 8) 2]
          (applyRX x 2 (run [.had 0, .rx (g 0) 0, .rx (g 1) 1, .ry (g 2) 0, .ry (g 3) 1, .rz (g 4) 0, .rz (g 5) 1, .cnot 0 1, .rx (g 6) 0, .ry (g 7) 0, .rz (g 8) 0, .had 0, .rx (d 0) 0] init))) := by
      intro x
      simp only [real_disc_circuit, gen_disc_circuit, realC, genC, discC,
        List.cons_append, List.nil_append, run_cons, run_nil, Gate.apply,
        Function.update_apply]
      simp
    simp only [h]
    exact paramshift_rx _ _ 2 (d 1)
  · have h : ∀ x : ℝ, gen_disc_circuit g (Function.update d 2 x) =
        expZ 2 (run [.ry (d 3) 2, .rz (d 4) 0, .rz (d 5) 2, .cnot 0 2, .rx (d 6) 2, .ry (d 7) 2, .rz (d 8) 2]
          (applyRY x 0 (run [.had 0, .rx (g 0) 0, .rx (g 1) 1, .ry (g 2) 0, .ry (g 3) 1, .rz (g 4) 0, .rz (g 5) 1, .cnot 0 1, .rx (g 6) 0, .ry (g 7) 0, .rz (g 8) 0, .had 0, .rx (d 0) 0, .rx (d 1) 2] init))) := by
      intro x
      simp only [real_disc_circuit, gen_disc_circuit, realC, genC, discC,
        List.cons_append, List.nil_append, run_cons, run_nil, Gate.apply,
        Function.update_apply]
      simp
    simp only [h]
    exact paramshift_ry _ _ 0 (d 2)
  · have h : ∀ x : ℝ, gen_disc_circuit g (Function.update d 3 x) =
        expZ 2 (run [.rz (d 4) 0, .rz (d 5) 2, .cnot 0 2, .rx (d 6) 2, .ry (d 7) 2, .rz (d 8) 2]
          (applyRY x 2 (run [.had 0, .rx (g 0) 0, .rx (g 1) 1, .ry (g 2) 0, .ry (g 3) 1, .rz (g 4) 0, .rz (g 5) 1, .cnot 0 1, .rx (g 6) 0, .ry (g 7) 0, .rz (g 8) 0, .had 0, .rx (d 0) 0, .rx (d 1) 2, .ry (d 2) 0] init))) := by
      intro x
      simp only [real_disc_circuit, gen_disc_circuit, realC, genC, discC,
        List.cons_append, List.nil_append, run_cons, run_nil, Gate.apply,
        Function.update_apply]
      simp
    simp only [h]
    exact paramshift_ry _ _ 2 (d 3)
  · have h : ∀ x : ℝ, gen_disc_circuit g (Function.update d 4 x) =
        expZ 2 (run [.rz (d 5) 2, .cnot 0 2, .rx (d 6) 2, .ry (d 7) 2, .rz (d 8) 2]
          (applyRZ x 0 (run [.had 0, .rx (g 0) 0, .rx (g 1) 1, .ry (g 2) 0, .ry (g 3) 1, .rz (g 4) 0, .rz (g 5) 1, .cnot 0 1, .rx (g 6) 0, .ry (g 7) 0, .rz (g 8) 0, .had 0, .rx (d 0) 0, .rx (d 1) 2, .ry (d 2) 0, .ry (d 3) 2] init))) := by
      intro x
      simp only [real_disc_circuit, gen_disc_circuit, realC, genC, discC,
        List.cons_append, List.nil_append, run_cons, run_nil, Gate.apply,
        Function.update_apply]
      simp
    simp only [h]
    exact paramshift_rz _ _ 0 (d 4)
  · have h : ∀ x : ℝ, gen_disc_circuit g (Function.update d 5 x) =
        expZ 2 (run [.cnot 0 2, .rx (d 6) 2, .ry (d 7) 2, .rz (d 8) 2]
          (applyRZ x 2 (run [.had 0, .rx (g 0) 0, .rx (g 1) 1, .ry (g 2) 0, .ry (g 3) 1, .rz (g 4) 0, .rz (g 5) 1, .cnot 0 1, .rx (g 6) 0, .ry (g 7) 0, .rz (g 8) 0, .had 0, .rx (d 0) 0, .rx (d 1) 2, .ry (d 2) 0, .ry (d 3) 2, .rz (d 4) 0] init))) := by
      intro x
      simp only [real_disc_circuit, gen_disc_circuit, realC, genC, discC,
        List.cons_append, List.nil_append, run_cons, run_nil, Gate.apply,
        Function.update_apply]
      simp
    simp only [h]
    exact paramshift_rz _ _ 2 (d 5)
  · have h : ∀ x : ℝ, gen_disc_circuit g (Function.update d 6 x) =
        expZ 2 (run [.ry (d 7) 2, .rz (d 8) 2]
          (applyRX x 2 (run [.had 0, .rx (g 0) 0, .rx (g 1) 1, .ry (g 2) 0, .ry (g 3) 1, .rz (g 4) 0, .rz (g 5) 1, .cnot 0 1, .rx (g 6) 0, .ry (g 7) 0, .rz (g 8) 0, .had 0, .rx (d 0) 0, .rx (d 1) 2, .ry (d 2) 0, .ry (d 3) 2, .rz (d 4) 0, .rz (d 5) 2, .cnot 0 2] init))) := by
      intro x
      simp only [real_disc_circuit, gen_disc_circuit, realC, genC, discC,
        List.cons_append, List.nil_append, run_cons, run_nil, Gate.apply,
        Function.update_apply]
      simp
    simp only [h]
    exact paramshift_rx _ _ 2 (d 6)
  · have h : ∀ x : ℝ, gen_disc_circuit g (Function.update d 7 x) =
        expZ 2 (run [.rz (d 8) 2]
          (applyRY x 2 (run [.had 0, .rx (g 0) 0, .rx (g 1) 1, .ry (g 2) 0, .ry (g 3) 1, .rz (g 4) 0, .rz (g 5) 1, .cnot 0 1, .rx (g 6) 0, .ry (g 7) 0, .rz (g 8) 0, .had 0, .rx (d 0) 0, .rx (d 1) 2, .ry (d 2) 0, .ry (d 3) 2, .rz (d 4) 0, .rz (d 5) 2, .cnot 0 2, .rx (d 6) 2] init))) := by
      intro x
      simp only [real_disc_circuit, gen_disc_circuit, realC, genC, discC,
        List.cons_append, List.nil_append, run_cons, run_nil, Gate.apply,
        Function.update_apply]
      simp
    simp only [h]
    exact paramshift_ry _ _ 2 (d 7)
  · have h : ∀ x : ℝ, gen_disc_circuit g (Function.update d 8 x) =
        expZ 2 (run []
          (applyRZ x 2 (run [.had 0, .rx (g 0) 0, .rx (g 1) 1, .ry (g 2) 0, .ry (g 3) 1, .rz (g 4) 0, .rz (g 5) 1, .cnot 0 1, .rx (g 6) 0, .ry (g 7) 0, .rz (g 8) 0, .had 0, .rx (d 0) 0, .rx (d 1) 2, .ry (d 2) 0, .ry (d 3) 2, .rz (d 4) 0, .rz (d 5) 2, .cnot 0 2, .rx (d 6) 2, .ry (d 7) 2] init))) := by
      intro x
      simp only [real_disc_circuit, gen_disc_circuit, realC, genC, discC,
        List.cons_append, List.nil_append, run_cons, run_nil, Gate.apply,
        Function.update_apply]
      simp
    simp only [h]
    exact paramshift_rz _ _ 2 (d 8)

/-- C4: for every trainable parameter of the real-plus-discriminator and
generator-plus-discriminator circuits (each parameter occurs on exactly one
rotation gate), the derivative of the Pauli-Z expectation with respect to
that parameter equals (value at +π/2 shift − value at −π/2 shift) / 2,
all other parameters held fixed. -/
theorem C4_parameter_shift (φa θa ωa : ℝ) (g d : Fin 9 → ℝ) (i : Fin 9) :
    HasDerivAt (fun x => real_disc_circuit φa θa ωa (Function.update d i x))
      ((real_disc_circuit φa θa ωa (Function.update d i (d i + Real.pi / 2)) -
        real_disc_circuit φa θa ωa (Function.update d i (d i - Real.pi / 2))) / 2)
      (d i) ∧
    HasDerivAt (fun x => gen_disc_circuit (Function.update g i x) d)
      ((gen_disc_circuit (Function.update g i (g i + Real.pi / 2)) d -
        gen_disc_circuit (Function.update g i (g i - Real.pi / 2)) d) / 2)
      (g i) ∧
    HasDerivAt (fun x => gen_disc_circuit g (Function.update d i x))
      ((gen_disc_circuit g (Function.update d i (d i + Real.pi / 2)) -
        gen_disc_circuit g (Function.update d i (d i - Real.pi / 2))) / 2)
      (d i) :=
  ⟨rdc_shift φa θa ωa d i, gdc_shift_gen g d i, gdc_shift_disc g d i⟩
